import Mathlib

set_option maxRecDepth 8192

/-!
Shallow embedding of the propolis qemu-ramfb device and the VNC server core,
translated from `src/lib/propolis/src/hw/qemu/ramfb.rs` and
`src/bin/propolis-server/src/lib/vnc.rs`.  Machine integers are modelled as
`Nat` with explicit overflow guards (`< 2^64`) where the source uses
`checked_mul`; guest memory is modelled as a byte function together with a
readability predicate; timestamps (`Instant`) are modelled as `Nat`
microseconds.
-/

/-- The `XR24` fourcc value (little-endian ASCII bytes of "XR24"). -/
def FOURCC_XR24 : Nat := 0x34325258

/-- Maximum valid width accepted by the VNC server (`MAX_RES` in vnc.rs). -/
def MAX_RES_width : Nat := 1920

/-- Maximum valid height accepted by the VNC server (`MAX_RES` in vnc.rs). -/
def MAX_RES_height : Nat := 1200

/-- Public projection of the ramfb configuration (ramfb.rs `FramebufferSpec`). -/
structure FramebufferSpec where
  width : Nat
  height : Nat
  stride : Nat
  fourcc : Nat
deriving Repr, DecidableEq

/-- vnc.rs `spec_valid`: the admission / frame-validation predicate.  The
source checks `(0..=MAX_RES.width).contains(&spec.width)` (note the lower
bound 0), the same for the height, and the fourcc. -/
def spec_valid (spec : FramebufferSpec) : Bool :=
  decide (spec.width ≤ MAX_RES_width) &&
  decide (spec.height ≤ MAX_RES_height) &&
  decide (spec.fourcc = FOURCC_XR24)

/-- ramfb.rs `Config`: the six device registers (host byte order). -/
structure Config where
  addr : Nat
  fourcc : Nat
  flags : Nat
  width : Nat
  height : Nat
  stride : Nat
deriving Repr, DecidableEq

/-- One past the largest `usize` value (the source targets a 64-bit host). -/
def USIZE_LIM : Nat := 2 ^ 64

/-- ramfb.rs `Config::stride`: `stride` when nonzero, otherwise
`width.checked_mul(bpp).unwrap_or(0) / 8`. -/
def Config.strideBytes (c : Config) (bpp : Nat) : Nat :=
  if c.stride = 0 then (if c.width * bpp < USIZE_LIM then c.width * bpp else 0) / 8
  else c.stride

/-- ramfb.rs `From<&Config> for FramebufferSpec`. -/
def Config.toSpec (c : Config) : FramebufferSpec :=
  { width := c.width, height := c.height, stride := c.stride, fourcc := c.fourcc }

/-- Guest-memory context: a byte at every guest-physical address, plus a
predicate saying which `(addr, len)` regions are readable. -/
structure MemCtx where
  readable : Nat → Nat → Bool
  byteAt : Nat → Nat

/-- Observable memory-accessor effects of the ramfb read path. -/
inductive MemEvent where
  | accessorAccess : MemEvent
  | readableRegion (addr len : Nat) : MemEvent
  | guestRead (addr len : Nat) : MemEvent
deriving Repr, DecidableEq

/-- ramfb.rs `Config::mapping`, instrumented with the memory events it
produces.  Returns the `(addr, len)` of the readable region on success. -/
def Config.mappingEv (c : Config) (bpp : Nat) (mem : MemCtx) :
    Option (Nat × Nat) × List MemEvent :=
  if c.height = 0 ∨ c.width = 0 ∨ bpp = 0 then (none, [])
  else if c.width * bpp < USIZE_LIM then
    let linesize := c.width * bpp / 8
    let stride := c.strideBytes bpp
    if (c.height - 1) * stride < USIZE_LIM then
      let len := (c.height - 1) * stride + linesize
      if mem.readable c.addr len then
        (some (c.addr, len), [MemEvent.readableRegion c.addr len])
      else (none, [MemEvent.readableRegion c.addr len])
    else (none, [])
  else (none, [])

/-- ramfb.rs `Config::mapping` (value part). -/
def Config.mapping (c : Config) (bpp : Nat) (mem : MemCtx) : Option (Nat × Nat) :=
  (c.mappingEv bpp mem).1

/-- ramfb.rs `Frame`: a copied-out framebuffer snapshot. -/
structure Frame where
  spec : FramebufferSpec
  data : List Nat
  when : Nat
deriving Repr, DecidableEq

/-- ramfb.rs `Frame::read_from`, instrumented with memory events.  Faithful to
the source, including `fb_linesize = width.checked_mul(bpp)` (no division by
8) and the two copy branches; bytes the source leaves uninitialized after
`set_len` are modelled as 0. -/
def Frame.readFromEv (c : Config) (bpp : Nat) (mem : MemCtx) (now : Nat) :
    Option Frame × List MemEvent :=
  match c.mappingEv bpp mem with
  | (none, evs) => (none, evs)
  | (some (addr, len), evs) =>
    if c.width * bpp < USIZE_LIM then
      let fb_linesize := c.width * bpp
      let fb_stride := c.strideBytes bpp
      if fb_stride ≤ fb_linesize then
        (some { spec := c.toSpec,
                data := (List.range len).map (fun i => mem.byteAt (addr + i)),
                when := now },
         evs ++ [MemEvent.guestRead addr len])
      else
        let height := c.height
        let len2 := fb_linesize * height * bpp / 8
        (some { spec := { c.toSpec with stride := 0 },
                data := (List.range len2).map (fun j =>
                  if j < height * fb_linesize then
                    mem.byteAt (addr + j / fb_linesize * fb_stride + j % fb_linesize)
                  else 0),
                when := now },
         evs ++ (List.range height).map
           (fun n => MemEvent.guestRead (addr + n * fb_stride) fb_linesize))
    else (none, evs)

/-- ramfb.rs `Frame::read_from` (value part). -/
def Frame.readFrom (c : Config) (bpp : Nat) (mem : MemCtx) (now : Nat) :
    Option Frame :=
  (Frame.readFromEv c bpp mem now).1

/-- ramfb.rs `Inner`: device state behind the mutex. -/
structure RamFbState where
  config : Config
  lastUpdate : Nat
deriving Repr, DecidableEq

/-- ramfb.rs `RamFb::read_framebuffer`, instrumented with memory events.  The
accessor (`acc_mem.access()`) is modelled as an optional `MemCtx`; consulting
it is recorded as `accessorAccess`. -/
def RamFb.readFramebufferEv (accMem : Option MemCtx) (st : RamFbState)
    (validateBpp : FramebufferSpec → Option Nat) (now : Nat) :
    Option Frame × List MemEvent :=
  match accMem with
  | none => (none, [MemEvent.accessorAccess])
  | some mem =>
    match validateBpp st.config.toSpec with
    | none => (none, [MemEvent.accessorAccess])
    | some bpp =>
      let r := Frame.readFromEv st.config bpp mem now
      (r.1, MemEvent.accessorAccess :: r.2)

/-- ramfb.rs `RamFb::read_spec`. -/
def RamFb.readSpec (st : RamFbState) : FramebufferSpec :=
  st.config.toSpec

/-- The all-readable test memory whose byte at address `a` is `a % 256`. -/
def memAll : MemCtx :=
  { readable := fun _ _ => true, byteAt := fun a => a % 256 }

/-- The configuration used to exhibit the stride-unit mismatch in
`Frame::read_from`: 4 pixels wide, 2 rows, 32 bpp, stride 32 bytes. -/
def cfgStride32 : Config :=
  { addr := 0, fourcc := FOURCC_XR24, flags := 0, width := 4, height := 2,
    stride := 32 }

/-- C1: the validity predicate used by admission and the frame validator is
claimed to reject `width = 0` / `height = 0`; evaluating the source's
`spec_valid` at the all-zero-size spec yields `true`, because the source
checks the ranges `0..=1920` and `0..=1200` inclusive of 0, contradicting its
own doc comment ("not zero"). -/
theorem spec_valid_accepts_zero :
    spec_valid { width := 0, height := 0, stride := 0, fourcc := FOURCC_XR24 }
      = true := by
  decide

/-- C2: evaluating `Frame::read_from` at width 4, height 2, bpp 32, stride 32:
linesize is 16 bytes and the effective stride 32 exceeds it, so the claim
requires 2 row-copies packed into 32 bytes with output stride 0; the code
instead compares the stride against `width * bpp = 128` (bits, not bytes),
takes the bulk-copy branch, copies 48 bytes and reports stride 32. -/
theorem read_from_stride_unit_mismatch :
    (Frame.readFrom cfgStride32 32 memAll 0).map
        (fun fr => (fr.data.length, fr.spec.stride)) = some (48, 32) ∧
    ¬ (32 ≤ 4 * 32 / 8) ∧
    (Frame.readFromEv cfgStride32 32 memAll 0).2 =
      [MemEvent.readableRegion 0 48, MemEvent.guestRead 0 48] := by
  refine ⟨?_, by decide, ?_⟩ <;> decide

/-- C3: when the validator returns none on the current spec,
`read_framebuffer` returns none, performs no `readable_region` lookup and no
guest-memory read. -/
theorem read_framebuffer_validator_none (accMem : Option MemCtx)
    (st : RamFbState) (validateBpp : FramebufferSpec → Option Nat) (now : Nat)
    (h : validateBpp st.config.toSpec = none) :
    (RamFb.readFramebufferEv accMem st validateBpp now).1 = none ∧
    ∀ e ∈ (RamFb.readFramebufferEv accMem st validateBpp now).2,
      (∀ a l, e ≠ MemEvent.readableRegion a l) ∧
      (∀ a l, e ≠ MemEvent.guestRead a l) := by
  cases accMem <;> simp [RamFb.readFramebufferEv, h]

/-- C3 witness: the validator rejecting everything, at a concrete state. -/
theorem read_framebuffer_validator_none_witness :
    (fun _ : FramebufferSpec => (none : Option Nat))
        ({ config := cfgStride32, lastUpdate := 0 } : RamFbState).config.toSpec
      = none ∧
    (RamFb.readFramebufferEv (some memAll)
        { config := cfgStride32, lastUpdate := 0 }
        (fun _ => none) 7).1 = none := by
  exact ⟨rfl,
    (read_framebuffer_validator_none (some memAll)
      { config := cfgStride32, lastUpdate := 0 } (fun _ => none) 7 rfl).1⟩

/-- Big-endian byte list of the low 4 bytes of `v` (the wire image a
`u32::to_be` store produces). -/
def be4 (v : Nat) : List Nat :=
  [v / 2 ^ 24 % 256, v / 2 ^ 16 % 256, v / 2 ^ 8 % 256, v % 256]

/-- Big-endian byte list of the low 8 bytes of `v` (the wire image a
`u64::to_be` store produces). -/
def be8 (v : Nat) : List Nat :=
  [v / 2 ^ 56 % 256, v / 2 ^ 48 % 256, v / 2 ^ 40 % 256, v / 2 ^ 32 % 256,
   v / 2 ^ 24 % 256, v / 2 ^ 16 % 256, v / 2 ^ 8 % 256, v % 256]

/-- Big-endian decoding of a byte list (what `u32::from_be` / `u64::from_be`
recover from the wire image). -/
def beDec (l : List Nat) : Nat :=
  l.foldl (fun acc b => acc * 256 + b) 0

/-- ramfb.rs `RamFb::FWCFG_ENTRY_SIZE`. -/
def FWCFG_ENTRY_SIZE : Nat := 28

/-- Modelled from the spec: `RegMap::create_packed` and the `RWOp` buffer
helpers live outside the provided sources; per spec section 4.1 and section 6
the `fw_cfg` entry is the packed 28-byte big-endian image of the six
registers, in declaration order `(addr, fourcc, flags, width, height,
stride)` with sizes `(8, 4, 4, 4, 4, 4)`. -/
def Config.encode (c : Config) : List Nat :=
  be8 c.addr ++ be4 c.fourcc ++ be4 c.flags ++
  be4 c.width ++ be4 c.height ++ be4 c.stride

/-- Decoding of the packed 28-byte big-endian image back into a `Config`
(the `u64::from_be` / `u32::from_be` reads performed per register in
`RamFb::fwcfg_rw`). -/
def Config.decode (l : List Nat) : Config :=
  { addr := beDec (l.take 8),
    fourcc := beDec ((l.drop 8).take 4),
    flags := beDec ((l.drop 12).take 4),
    width := beDec ((l.drop 16).take 4),
    height := beDec ((l.drop 20).take 4),
    stride := beDec ((l.drop 24).take 4) }

/-- Byte-wise overwrite of `img` starting at `off` with the bytes `bs`
(the per-register sub-writes a straddling write is split into). -/
def patchBytes : List Nat → Nat → List Nat → List Nat
  | img, _, [] => img
  | [], _, _ :: _ => []
  | _ :: img, 0, w :: ws => w :: patchBytes img 0 ws
  | b :: img, o + 1, ws => b :: patchBytes img o ws

/-- A read or write access arriving at the `fw_cfg` entry (ramfb.rs `RWOp`),
with the write payload carried as wire bytes. -/
inductive RWOp where
  | read (offset len : Nat) : RWOp
  | write (offset : Nat) (bytes : List Nat) : RWOp
deriving Repr, DecidableEq

/-- ramfb.rs `RWOp::is_write`. -/
def RWOp.isWrite : RWOp → Bool
  | .read _ _ => false
  | .write _ _ => true

/-- Outcome of `RamFb::fwcfg_rw`: the `Result`, the new device state, the
bytes produced for a read, and the number of `notify_waiters` calls. -/
structure FwcfgResult where
  ok : Bool
  state : RamFbState
  readBytes : List Nat
  notifies : Nat
deriving Repr, DecidableEq

/-- ramfb.rs `RamFb::fwcfg_rw`.  A write with `offset >= 28` or
`offset + len > 28` is rejected before any register is touched; otherwise the
access is applied byte-wise to the big-endian register image (the
out-of-source `CFG_REGS.process` split, modelled from the spec), and a write
then stamps `last_update` and fires one `notify_waiters`. -/
def RamFb.fwcfgRw (st : RamFbState) (now : Nat) : RWOp → FwcfgResult
  | .read off len =>
    { ok := true, state := st,
      readBytes := ((Config.encode st.config).drop off).take len,
      notifies := 0 }
  | .write off bs =>
    if off ≥ FWCFG_ENTRY_SIZE ∨ off + bs.length > FWCFG_ENTRY_SIZE then
      { ok := false, state := st, readBytes := [], notifies := 0 }
    else
      { ok := true,
        state := { config := Config.decode (patchBytes (Config.encode st.config) off bs),
                   lastUpdate := now },
        readBytes := [], notifies := 1 }

/-- The six registers of the 28-byte layout. -/
inductive CfgField where
  | addr | fourcc | flags | width | height | stride
deriving Repr, DecidableEq

/-- Byte offset of a register in the packed layout. -/
def CfgField.off : CfgField → Nat
  | .addr => 0 | .fourcc => 8 | .flags => 12
  | .width => 16 | .height => 20 | .stride => 24

/-- Byte size of a register in the packed layout. -/
def CfgField.size : CfgField → Nat
  | .addr => 8 | _ => 4

/-- Wire encoding of a value for a given register. -/
def CfgField.enc : CfgField → Nat → List Nat
  | .addr, v => be8 v
  | _, v => be4 v

/-- Range invariant of a `Config` (the Rust field types `u64` / `u32`). -/
def Config.wf (c : Config) : Prop :=
  c.addr < 2 ^ 64 ∧ c.fourcc < 2 ^ 32 ∧ c.flags < 2 ^ 32 ∧
  c.width < 2 ^ 32 ∧ c.height < 2 ^ 32 ∧ c.stride < 2 ^ 32

/-- Update of one register with a raw host value. -/
def Config.setField (c : Config) : CfgField → Nat → Config
  | .addr, v => { c with addr := v }
  | .fourcc, v => { c with fourcc := v }
  | .flags, v => { c with flags := v }
  | .width, v => { c with width := v }
  | .height, v => { c with height := v }
  | .stride, v => { c with stride := v }

theorem beDec_be4 (v : Nat) (h : v < 2 ^ 32) : beDec (be4 v) = v := by
  simp only [be4, beDec, List.foldl]
  omega

theorem beDec_be8 (v : Nat) (h : v < 2 ^ 64) : beDec (be8 v) = v := by
  simp only [be8, beDec, List.foldl]
  have f1 : v / 2 ^ 8 * 256 + v % 256 = v := by omega
  have f2 : v / 2 ^ 16 * 256 + v / 2 ^ 8 % 256 = v / 2 ^ 8 := by omega
  have f3 : v / 2 ^ 24 * 256 + v / 2 ^ 16 % 256 = v / 2 ^ 16 := by omega
  have f4 : v / 2 ^ 32 * 256 + v / 2 ^ 24 % 256 = v / 2 ^ 24 := by omega
  have f5 : v / 2 ^ 40 * 256 + v / 2 ^ 32 % 256 = v / 2 ^ 32 := by omega
  have f6 : v / 2 ^ 48 * 256 + v / 2 ^ 40 % 256 = v / 2 ^ 40 := by omega
  have f7 : v / 2 ^ 56 * 256 + v / 2 ^ 48 % 256 = v / 2 ^ 48 := by omega
  have f8 : v / 2 ^ 56 % 256 = v / 2 ^ 56 := by omega
  omega

theorem decode_encode (c : Config) (h : c.wf) : Config.decode c.encode = c := by
  obtain ⟨a, fc, fl, w, ht, s⟩ := c
  obtain ⟨h1, h2, h3, h4, h5, h6⟩ := h
  simp only [Config.encode, Config.decode, be4, be8,
    List.cons_append, List.nil_append, List.take, List.drop, Config.mk.injEq]
  exact ⟨beDec_be8 a h1, beDec_be4 fc h2, beDec_be4 fl h3, beDec_be4 w h4,
    beDec_be4 ht h5, beDec_be4 s h6⟩

/-- Read of one register out of a `Config` by field name. -/
def Config.getField (c : Config) : CfgField → Nat
  | .addr => c.addr
  | .fourcc => c.fourcc
  | .flags => c.flags
  | .width => c.width
  | .height => c.height
  | .stride => c.stride

theorem patch_encode (c : Config) (f : CfgField) (v : Nat) :
    patchBytes c.encode f.off (f.enc v) = (c.setField f v).encode := by
  obtain ⟨a, fc, fl, w, ht, s⟩ := c
  cases f <;>
    simp [Config.encode, Config.setField, CfgField.off, CfgField.enc,
      be4, be8, patchBytes, List.cons_append, List.nil_append]

theorem encode_field_slice (c : Config) (f : CfgField) :
    ((Config.encode c).drop f.off).take f.size = f.enc (c.getField f) := by
  obtain ⟨a, fc, fl, w, ht, s⟩ := c
  cases f <;>
    simp [Config.encode, Config.getField, CfgField.off, CfgField.size,
      CfgField.enc, be4, be8, List.cons_append, List.nil_append]

theorem getField_setField (c : Config) (f : CfgField) (v : Nat) :
    (c.setField f v).getField f = v := by
  cases f <;> rfl

theorem setField_wf (c : Config) (f : CfgField) (v : Nat) (hwf : c.wf)
    (hv : v < 2 ^ (8 * f.size)) : (c.setField f v).wf := by
  obtain ⟨h1, h2, h3, h4, h5, h6⟩ := hwf
  cases f <;> simp [Config.wf, Config.setField, CfgField.size] at * <;> omega

/-- C4 helper: the accepted field-aligned write turns the stored config into
the field update and stamps the time. -/
theorem fwcfg_write_sets_field (st : RamFbState) (now : Nat) (f : CfgField)
    (v : Nat) (hwf : st.config.wf) (hv : v < 2 ^ (8 * f.size)) :
    (RamFb.fwcfgRw st now (RWOp.write f.off (f.enc v))).state =
      { config := st.config.setField f v, lastUpdate := now } := by
  have hb : ¬ (f.off ≥ FWCFG_ENTRY_SIZE ∨
      f.off + (f.enc v).length > FWCFG_ENTRY_SIZE) := by
    cases f <;> simp [CfgField.off, CfgField.enc, be4, be8, FWCFG_ENTRY_SIZE]
  simp only [RamFb.fwcfgRw, if_neg hb]
  rw [patch_encode, decode_encode _ (setField_wf st.config f v hwf hv)]

/-- C4: a field-aligned `fwcfg_rw` write of any in-range value is accepted,
a subsequent read of the same field returns the same wire bytes, and
`read_spec` afterwards reflects the newly written width, height, stride and
fourcc in host byte order (the big-endian inversion happens exactly once). -/
theorem fwcfg_write_read_back (st : RamFbState) (now now2 : Nat) (f : CfgField)
    (v : Nat) (hwf : st.config.wf) (hv : v < 2 ^ (8 * f.size)) :
    (RamFb.fwcfgRw st now (RWOp.write f.off (f.enc v))).ok = true ∧
    (RamFb.fwcfgRw (RamFb.fwcfgRw st now (RWOp.write f.off (f.enc v))).state
        now2 (RWOp.read f.off f.size)).readBytes = f.enc v ∧
    RamFb.readSpec (RamFb.fwcfgRw st now (RWOp.write f.off (f.enc v))).state =
      { width := if f = CfgField.width then v else st.config.width,
        height := if f = CfgField.height then v else st.config.height,
        stride := if f = CfgField.stride then v else st.config.stride,
        fourcc := if f = CfgField.fourcc then v else st.config.fourcc } := by
  have hb : ¬ (f.off ≥ FWCFG_ENTRY_SIZE ∨
      f.off + (f.enc v).length > FWCFG_ENTRY_SIZE) := by
    cases f <;> simp [CfgField.off, CfgField.enc, be4, be8, FWCFG_ENTRY_SIZE]
  have hstate := fwcfg_write_sets_field st now f v hwf hv
  refine ⟨by simp only [RamFb.fwcfgRw, if_neg hb], ?_, ?_⟩
  · rw [hstate]
    simp only [RamFb.fwcfgRw]
    rw [encode_field_slice, getField_setField]
  · rw [hstate]
    simp only [RamFb.readSpec]
    cases f <;> simp [Config.toSpec, Config.setField]

/-- The all-zero (default) device configuration. -/
def cfgZero : Config :=
  { addr := 0, fourcc := 0, flags := 0, width := 0, height := 0, stride := 0 }

/-- The initial device state: default config, time 0. -/
def stZero : RamFbState :=
  { config := cfgZero, lastUpdate := 0 }

/-- C4 witness: write width 800 at offset 16 of the initial state. -/
theorem fwcfg_write_read_back_witness :
    cfgZero.wf ∧ (800 : Nat) < 2 ^ (8 * CfgField.width.size) ∧
    (RamFb.fwcfgRw stZero 3
        (RWOp.write CfgField.width.off (CfgField.width.enc 800))).ok = true := by
  refine ⟨?_, by decide, ?_⟩
  · simp [Config.wf, cfgZero]
  · exact (fwcfg_write_read_back stZero 3 7 CfgField.width 800
      (by simp [Config.wf, cfgZero, stZero]) (by decide)).1

/-- C5: a `fwcfg_rw` write with `offset >= 28` or `offset + len > 28` returns
an error and leaves the whole device state (all six config fields) unchanged;
any write with `offset < 28` and `offset + len <= 28` succeeds. -/
theorem fwcfg_write_bounds (st : RamFbState) (now off : Nat) (bs : List Nat) :
    (off ≥ FWCFG_ENTRY_SIZE ∨ off + bs.length > FWCFG_ENTRY_SIZE →
      RamFb.fwcfgRw st now (RWOp.write off bs) =
        { ok := false, state := st, readBytes := [], notifies := 0 }) ∧
    (off < FWCFG_ENTRY_SIZE → off + bs.length ≤ FWCFG_ENTRY_SIZE →
      (RamFb.fwcfgRw st now (RWOp.write off bs)).ok = true) := by
  constructor
  · intro h
    simp only [RamFb.fwcfgRw, if_pos h]
  · intro h1 h2
    have hb : ¬ (off ≥ FWCFG_ENTRY_SIZE ∨
        off + bs.length > FWCFG_ENTRY_SIZE) := by omega
    simp only [RamFb.fwcfgRw, if_neg hb]

/-- C5 witness: the rejected write at offset 28 and the accepted one at 27. -/
theorem fwcfg_write_bounds_witness :
    RamFb.fwcfgRw { config := cfgStride32, lastUpdate := 0 } 9
        (RWOp.write 28 [1]) =
      { ok := false, state := { config := cfgStride32, lastUpdate := 0 },
        readBytes := [], notifies := 0 } ∧
    (RamFb.fwcfgRw { config := cfgStride32, lastUpdate := 0 } 9
        (RWOp.write 27 [1])).ok = true := by
  exact ⟨(fwcfg_write_bounds { config := cfgStride32, lastUpdate := 0 } 9
      28 [1]).1 (by decide),
    (fwcfg_write_bounds { config := cfgStride32, lastUpdate := 0 } 9
      27 [1]).2 (by decide) (by decide)⟩

/-- C7: an accepted `fwcfg_rw` write stamps `last_update` with the current
time (strictly later than the previous stamp) and fires exactly one
change-notification wake, independent of how many registers it touched; a
read-only call fires none and leaves `last_update` unchanged. -/
theorem fwcfg_write_notifies (st : RamFbState) (now : Nat) (op : RWOp)
    (hnow : st.lastUpdate < now) :
    ((RamFb.fwcfgRw st now op).ok = true → op.isWrite = true →
      st.lastUpdate < (RamFb.fwcfgRw st now op).state.lastUpdate ∧
      (RamFb.fwcfgRw st now op).notifies = 1) ∧
    (op.isWrite = false →
      (RamFb.fwcfgRw st now op).notifies = 0 ∧
      (RamFb.fwcfgRw st now op).state.lastUpdate = st.lastUpdate) := by
  cases op with
  | read off len => simp [RamFb.fwcfgRw, RWOp.isWrite]
  | write off bs =>
    constructor
    · intro hok _
      by_cases hb : off ≥ FWCFG_ENTRY_SIZE ∨ off + bs.length > FWCFG_ENTRY_SIZE
      · simp [RamFb.fwcfgRw, if_pos hb] at hok
      · simp [RamFb.fwcfgRw, if_neg hb]
        exact hnow
    · intro h
      simp [RWOp.isWrite] at h

/-- C7 witness: a concrete accepted write and a concrete read. -/
theorem fwcfg_write_notifies_witness :
    (RamFb.fwcfgRw { config := cfgStride32, lastUpdate := 0 } 5
        (RWOp.write 0 [7])).notifies = 1 ∧
    (RamFb.fwcfgRw { config := cfgStride32, lastUpdate := 0 } 5
        (RWOp.read 0 4)).notifies = 0 := by
  have h1 := fwcfg_write_notifies { config := cfgStride32, lastUpdate := 0 } 5
    (RWOp.write 0 [7]) (by decide)
  have h2 := fwcfg_write_notifies { config := cfgStride32, lastUpdate := 0 } 5
    (RWOp.read 0 4) (by decide)
  exact ⟨(h1.1 (by decide) rfl).2, (h2.2 rfl).1⟩

/-- ramfb.rs `migrate::RamFbV1`: the migration payload. -/
structure RamFbV1 where
  addr : Nat
  fourcc : Nat
  flags : Nat
  width : Nat
  height : Nat
  stride : Nat
deriving Repr, DecidableEq

/-- ramfb.rs `Schema for RamFbV1`: the schema id. -/
def RamFbV1.schemaId : String × Nat := ("qemu-ramfb", 1)

/-- ramfb.rs `MigrateSingle::export` for `RamFb`. -/
def RamFb.exportState (st : RamFbState) : RamFbV1 :=
  { addr := st.config.addr, fourcc := st.config.fourcc,
    flags := st.config.flags, width := st.config.width,
    height := st.config.height, stride := st.config.stride }

/-- ramfb.rs `MigrateSingle::import` for `RamFb`: restores the six fields and
stamps `last_update` with the current time. -/
def RamFb.importState (st : RamFbState) (data : RamFbV1) (now : Nat) :
    RamFbState :=
  { config := { addr := data.addr, fourcc := data.fourcc, flags := data.flags,
                width := data.width, height := data.height,
                stride := data.stride },
    lastUpdate := now }

/-- C6: migration export followed by import restores all six config fields
bit-for-bit under schema id ("qemu-ramfb", 1), and import stamps
`last_update` with the current time. -/
theorem migrate_config_roundtrip (st target : RamFbState) (now : Nat) :
    (RamFb.importState target (RamFb.exportState st) now).config = st.config ∧
    (RamFb.importState target (RamFb.exportState st) now).lastUpdate = now ∧
    RamFbV1.schemaId = ("qemu-ramfb", 1) := by
  refine ⟨?_, rfl, rfl⟩
  simp [RamFb.importState, RamFb.exportState]

/-- vnc.rs `FRAME_US_10FPS`: the minimum frame interval in microseconds. -/
def FRAME_INT_US : Nat := 1000000 / 10

/-- vnc.rs `FrameKind`. -/
inductive FrameKind where
  | Valid | Generated
deriving Repr, DecidableEq

/-- vnc.rs `ClientState`; `fbu_req` keeps only whether a request is pending,
which is all the session loop inspects (the request fields and the encoding
set are never consulted by the paths under verification). -/
structure ClientState where
  lastFrame : Option (Frame × FrameKind)
  fbuReq : Bool
deriving Repr, DecidableEq

/-- vnc.rs `blank_frame`: black 1024x768 filler at 32 bpp, stamped `now`. -/
def blank_frame (now : Nat) : Frame :=
  { spec := { width := 1024, height := 768, stride := 0,
              fourcc := FOURCC_XR24 },
    data := List.replicate (1024 * 768 * 4) 0,
    when := now }

/-- vnc.rs `VncServer::update_frame`.  `readResult` is what
`read_framebuffer` returns at this instant (spec and pixel bytes of a valid
frame, or none); a returned frame is stamped with the current time, as
`Frame::read_from` does. -/
def update_frame (cs : ClientState)
    (readResult : Option (FramebufferSpec × List Nat)) (now : Nat) :
    ClientState × Bool :=
  match readResult with
  | some (sp, d) =>
    let fr : Frame := { spec := sp, data := d, when := now }
    ({ cs with lastFrame := some (fr, FrameKind.Valid) }, true)
  | none =>
    match cs.lastFrame with
    | some (_, FrameKind.Generated) => (cs, false)
    | _ =>
      ({ cs with lastFrame := some (blank_frame now, FrameKind.Generated) },
       true)

/-- vnc.rs `VncServer::wait_for_next_frame`: whether the frame arm of the
session select can resolve at time `now`, given what the device read would
return.  With no pending request the arm pends forever; with no previous
frame or a generated one it resolves exactly when `update_frame` reports a
change; with a valid previous frame it resolves once the frame's age reaches
the minimum frame interval. -/
def frameArmReady (cs : ClientState)
    (readResult : Option (FramebufferSpec × List Nat)) (now : Nat) : Bool :=
  cs.fbuReq &&
    match cs.lastFrame with
    | none => true
    | some (_, FrameKind.Generated) => (update_frame cs readResult now).2
    | some (fr, FrameKind.Valid) => decide (fr.when + FRAME_INT_US ≤ now)

/-- Record of one FramebufferUpdate send: its time and the kind of frame. -/
structure SendRec where
  time : Nat
  kind : FrameKind
deriving Repr, DecidableEq

/-- vnc.rs `VncServer::send_fbu`: wraps `last_frame` (whose unconditional
unwrap is modelled by returning `none` on a missing frame) and clears the
pending request. -/
def send_fbu (cs : ClientState) (now : Nat) : Option (ClientState × SendRec) :=
  match cs.lastFrame with
  | none => none
  | some (_, k) =>
    let rec0 : SendRec := { time := now, kind := k }
    some ({ cs with fbuReq := false }, rec0)

/-- One scheduling event of a session-loop iteration: an inbound
FramebufferUpdateRequest, any other client message, or the frame arm firing
(parameterised by what the device read returns at that instant). -/
inductive SessEvent where
  | recvFbuReq : SessEvent
  | recvOther : SessEvent
  | frameFire (readResult : Option (FramebufferSpec × List Nat)) : SessEvent
deriving Repr, DecidableEq

/-- One step of the session loop (vnc.rs `run`) at time `now`: message
dispatch per `handle_msg`, or `wait_for_next_frame` resolving followed by
`send_fbu`.  `none` means the event cannot happen: the frame arm is not
ready, or the `send_fbu` unwrap would panic. -/
def sessStep (cs : ClientState) (now : Nat) :
    SessEvent → Option (ClientState × Option SendRec)
  | SessEvent.recvFbuReq => some ({ cs with fbuReq := true }, none)
  | SessEvent.recvOther => some (cs, none)
  | SessEvent.frameFire r =>
    if frameArmReady cs r now then
      match send_fbu (update_frame cs r now).1 now with
      | none => none
      | some (cs2, sent) => some (cs2, some sent)
    else none

/-- A session execution: fold `sessStep` over timed events with
nondecreasing times, collecting the FramebufferUpdates sent. -/
def runTrace : Nat → ClientState → List (Nat × SessEvent) →
    Option (ClientState × List SendRec)
  | _, cs, [] => some (cs, [])
  | tmin, cs, (t, e) :: rest =>
    if t < tmin then none
    else
      match sessStep cs t e with
      | none => none
      | some (cs2, sent) =>
        match runTrace t cs2 rest with
        | none => none
        | some (cs3, sends) => some (cs3, sent.toList ++ sends)

/-- vnc.rs `run`: the client state a fresh session starts from
(`Default::default()`). -/
def csInit : ClientState := { lastFrame := none, fbuReq := false }

/-- Number of FramebufferUpdateRequest messages in a trace. -/
def countReqs : List (Nat × SessEvent) → Nat
  | [] => 0
  | (_, SessEvent.recvFbuReq) :: rest => countReqs rest + 1
  | _ :: rest => countReqs rest

theorem update_frame_isSome (cs : ClientState)
    (r : Option (FramebufferSpec × List Nat)) (now : Nat) :
    ((update_frame cs r now).1.lastFrame).isSome = true := by
  cases r with
  | some p =>
    obtain ⟨sp, d⟩ := p
    simp [update_frame]
  | none =>
    cases hlf : cs.lastFrame with
    | none => simp [update_frame, hlf]
    | some pk =>
      obtain ⟨fr, k⟩ := pk
      cases k <;> simp [update_frame, hlf]

theorem update_frame_valid_when (cs : ClientState)
    (r : Option (FramebufferSpec × List Nat)) (now : Nat) (fr : Frame)
    (h : (update_frame cs r now).1.lastFrame = some (fr, FrameKind.Valid)) :
    fr.when = now := by
  cases r with
  | some p =>
    obtain ⟨sp, d⟩ := p
    simp only [update_frame, Option.some.injEq, Prod.mk.injEq] at h
    rw [← h.1]
  | none =>
    cases hlf : cs.lastFrame with
    | none =>
      simp only [update_frame, hlf, Option.some.injEq, Prod.mk.injEq] at h
      exact absurd h.2 (by decide)
    | some pk =>
      obtain ⟨fr0, k⟩ := pk
      cases k with
      | Valid =>
        simp only [update_frame, hlf, Option.some.injEq, Prod.mk.injEq] at h
        exact absurd h.2 (by decide)
      | Generated =>
        simp only [update_frame, hlf, Option.some.injEq, Prod.mk.injEq] at h
        exact absurd h.2 (by decide)

theorem sessStep_fire (cs : ClientState) (now : Nat)
    (r : Option (FramebufferSpec × List Nat))
    (out : ClientState × Option SendRec)
    (h : sessStep cs now (SessEvent.frameFire r) = some out) :
    frameArmReady cs r now = true ∧
    ∃ fr k, (update_frame cs r now).1.lastFrame = some (fr, k) ∧
      out.1.lastFrame = some (fr, k) ∧ out.1.fbuReq = false ∧
      out.2 = some { time := now, kind := k } := by
  simp only [sessStep] at h
  split at h
  case isTrue hr =>
    cases hlf : (update_frame cs r now).1.lastFrame with
    | none => simp [send_fbu, hlf] at h
    | some pk =>
      obtain ⟨fr, k⟩ := pk
      simp only [send_fbu, hlf] at h
      cases h
      exact ⟨hr, fr, k, rfl, rfl, rfl, rfl⟩
  case isFalse => exact absurd h (by simp)

theorem frameArmReady_fbuReq (cs : ClientState)
    (r : Option (FramebufferSpec × List Nat)) (now : Nat)
    (h : frameArmReady cs r now = true) : cs.fbuReq = true := by
  simp only [frameArmReady, Bool.and_eq_true] at h
  exact h.1

theorem runTrace_req_bound (tr : List (Nat × SessEvent)) :
    ∀ (tmin : Nat) (cs cs2 : ClientState) (sends : List SendRec),
    runTrace tmin cs tr = some (cs2, sends) →
    sends.length + (if cs2.fbuReq then 1 else 0) ≤
      countReqs tr + (if cs.fbuReq then 1 else 0) := by
  induction tr with
  | nil =>
    intro tmin cs cs2 sends h
    simp only [runTrace, Option.some.injEq, Prod.mk.injEq] at h
    obtain ⟨h1, h2⟩ := h
    subst h1
    subst h2
    simp [countReqs]
  | cons head rest ih =>
    obtain ⟨t, e⟩ := head
    intro tmin cs cs2 sends h
    simp only [runTrace] at h
    split at h
    · exact absurd h (by simp)
    · split at h
      · exact absurd h (by simp)
      · next cs1 sent hstep =>
        split at h
        · exact absurd h (by simp)
        · next cs3 sends1 hrun =>
          simp only [Option.some.injEq, Prod.mk.injEq] at h
          obtain ⟨hcs, hsends⟩ := h
          subst hcs
          have hrest := ih t cs1 cs3 sends1 hrun
          cases e with
          | recvFbuReq =>
            simp only [sessStep, Option.some.injEq, Prod.mk.injEq] at hstep
            obtain ⟨hcs1, hsent⟩ := hstep
            subst hcs1
            subst hsent
            subst hsends
            have hrest2 : sends1.length + (if cs3.fbuReq then 1 else 0) ≤
                countReqs rest + 1 := by simpa using hrest
            simp only [countReqs, Option.toList, List.nil_append]
            exact le_trans hrest2 (Nat.le_add_right _ _)
          | recvOther =>
            simp only [sessStep, Option.some.injEq, Prod.mk.injEq] at hstep
            obtain ⟨hcs1, hsent⟩ := hstep
            subst hcs1
            subst hsent
            subst hsends
            simp only [countReqs, Option.toList, List.nil_append]
            exact hrest
          | frameFire r =>
            obtain ⟨hready, fr, k, hupd, hlf1, hfbu1, hsent⟩ :=
              sessStep_fire cs t r (cs1, sent) hstep
            have hreq := frameArmReady_fbuReq cs r t hready
            have hsent2 : sent = some { time := t, kind := k } := hsent
            have hrest2 : sends1.length + (if cs3.fbuReq then 1 else 0) ≤
                countReqs rest := by
              rw [hfbu1] at hrest
              simpa using hrest
            subst hsends
            rw [hsent2]
            have hif : (if cs.fbuReq then (1 : Nat) else 0) = 1 := by
              simp [hreq]
            rw [hif]
            simp only [countReqs, Option.toList, List.singleton_append,
              List.length_cons]
            omega

/-- C8: the frame arm of the session select fires only while a
FramebufferUpdateRequest is pending, each send clears the pending request,
and along every session execution from the initial state at most one
FramebufferUpdate is sent per received FramebufferUpdateRequest. -/
theorem session_fbu_per_request :
    (∀ (cs : ClientState) (now : Nat)
        (r : Option (FramebufferSpec × List Nat))
        (out : ClientState × Option SendRec),
        sessStep cs now (SessEvent.frameFire r) = some out →
        cs.fbuReq = true ∧ out.1.fbuReq = false) ∧
    (∀ (tmin : Nat) (tr : List (Nat × SessEvent)) (cs2 : ClientState)
        (sends : List SendRec),
        runTrace tmin csInit tr = some (cs2, sends) →
        sends.length ≤ countReqs tr) := by
  constructor
  · intro cs now r out h
    obtain ⟨hready, fr, k, _, _, hfbu, _⟩ := sessStep_fire cs now r out h
    exact ⟨frameArmReady_fbuReq cs r now hready, hfbu⟩
  · intro tmin tr cs2 sends h
    have hb := runTrace_req_bound tr tmin csInit cs2 sends h
    have hb2 : sends.length + (if cs2.fbuReq then 1 else 0) ≤ countReqs tr := by
      simpa [csInit] using hb
    omega

/-- A 1-by-1 valid spec used to drive concrete session executions. -/
def specTiny : FramebufferSpec :=
  { width := 1, height := 1, stride := 0, fourcc := FOURCC_XR24 }

/-- A device read returning a tiny valid frame. -/
def readTiny : Option (FramebufferSpec × List Nat) :=
  some (specTiny, [0, 0, 0, 0])

/-- A session state with a pending request and no frame yet. -/
def csReq : ClientState := { lastFrame := none, fbuReq := true }

/-- The tiny frame as captured at time 0. -/
def frameW : Frame := { spec := specTiny, data := [0, 0, 0, 0], when := 0 }

/-- Outcome of the frame arm firing on `csReq` at time 0 with `readTiny`. -/
def outW : ClientState × Option SendRec :=
  ({ lastFrame := some (frameW, FrameKind.Valid), fbuReq := false },
   some { time := 0, kind := FrameKind.Valid })

/-- A two-event trace: one request, then the frame arm fires. -/
def trW : List (Nat × SessEvent) :=
  [(0, SessEvent.recvFbuReq), (0, SessEvent.frameFire readTiny)]

/-- C8 witness: both parts at concrete inputs. -/
theorem session_fbu_per_request_witness :
    (csReq.fbuReq = true ∧ outW.1.fbuReq = false) ∧
    [({ time := 0, kind := FrameKind.Valid } : SendRec)].length ≤
      countReqs trW := by
  constructor
  · exact session_fbu_per_request.1 csReq 0 readTiny outW rfl
  · exact session_fbu_per_request.2 0 trW outW.1
      [{ time := 0, kind := FrameKind.Valid }] rfl

/-- The four-event trace violating the claimed global pacing: a request
answered by a generated filler frame at time 0, then a request answered by a
valid frame at time 1000, only 1000 microseconds later. -/
def trC9 : List (Nat × SessEvent) :=
  [(0, SessEvent.recvFbuReq), (0, SessEvent.frameFire none),
   (1000, SessEvent.recvFbuReq), (1000, SessEvent.frameFire readTiny)]

/-- C9 counterexample: the session execution `trC9` is accepted by the model
and sends two FramebufferUpdates 1000 microseconds apart, far less than
`min_frame_interval` (100000 microseconds = 100 ms); the first carried a
Generated filler, so the Valid-frame age check never ran. -/
theorem vnc_pacing_counterexample :
    (runTrace 0 csInit trC9).map
        (fun p => p.2.map (fun s => (s.time, s.kind))) =
      some [(0, FrameKind.Generated), (1000, FrameKind.Valid)] ∧
    1000 - 0 < FRAME_INT_US := by
  exact ⟨rfl, by decide⟩

/-- Pacing property of a send list relative to the previous send: a send
following a Valid-frame send is at least the minimum frame interval later. -/
def pacedChain : Option SendRec → List SendRec → Prop
  | _, [] => True
  | none, s :: rest => pacedChain (some s) rest
  | some p, s :: rest =>
    (p.kind = FrameKind.Valid → p.time + FRAME_INT_US ≤ s.time) ∧
    pacedChain (some s) rest

/-- Invariant tying the previous send to the cached frame: after a
Valid-frame send, the cached frame is that Valid frame, stamped with the
send time. -/
def linkInv (prev : Option SendRec) (cs : ClientState) : Prop :=
  ∀ p, prev = some p → p.kind = FrameKind.Valid →
    ∃ fr, cs.lastFrame = some (fr, FrameKind.Valid) ∧ fr.when = p.time

theorem frameArmReady_valid (cs : ClientState)
    (r : Option (FramebufferSpec × List Nat)) (now : Nat) (fr0 : Frame)
    (hlf : cs.lastFrame = some (fr0, FrameKind.Valid))
    (h : frameArmReady cs r now = true) :
    fr0.when + FRAME_INT_US ≤ now := by
  simp only [frameArmReady, hlf, Bool.and_eq_true, decide_eq_true_eq] at h
  exact h.2

theorem runTrace_paced (tr : List (Nat × SessEvent)) :
    ∀ (tmin : Nat) (cs : ClientState) (prev : Option SendRec)
    (cs2 : ClientState) (sends : List SendRec),
    linkInv prev cs → runTrace tmin cs tr = some (cs2, sends) →
    pacedChain prev sends := by
  induction tr with
  | nil =>
    intro tmin cs prev cs2 sends _ h
    simp only [runTrace, Option.some.injEq, Prod.mk.injEq] at h
    rw [← h.2]
    cases prev <;> trivial
  | cons head rest ih =>
    obtain ⟨t, e⟩ := head
    intro tmin cs prev cs2 sends hinv h
    simp only [runTrace] at h
    split at h
    · exact absurd h (by simp)
    · split at h
      · exact absurd h (by simp)
      · next cs1 sent hstep =>
        split at h
        · exact absurd h (by simp)
        · next cs3 sends1 hrun =>
          simp only [Option.some.injEq, Prod.mk.injEq] at h
          obtain ⟨hcs, hsends⟩ := h
          subst hcs
          cases e with
          | recvFbuReq =>
            simp only [sessStep, Option.some.injEq, Prod.mk.injEq] at hstep
            obtain ⟨hcs1, hsent⟩ := hstep
            subst hcs1
            subst hsent
            subst hsends
            simp only [Option.toList, List.nil_append]
            refine ih t _ prev cs3 sends1 ?_ hrun
            intro p hp hpk
            exact hinv p hp hpk
          | recvOther =>
            simp only [sessStep, Option.some.injEq, Prod.mk.injEq] at hstep
            obtain ⟨hcs1, hsent⟩ := hstep
            subst hcs1
            subst hsent
            subst hsends
            simp only [Option.toList, List.nil_append]
            exact ih t cs prev cs3 sends1 hinv hrun
          | frameFire r =>
            obtain ⟨hready, fr, k, hupd, hlf1, hfbu1, hsent⟩ :=
              sessStep_fire cs t r (cs1, sent) hstep
            have hsent2 : sent = some { time := t, kind := k } := hsent
            subst hsends
            rw [hsent2]
            simp only [Option.toList, List.singleton_append]
            have hinv1 : linkInv (some { time := t, kind := k }) cs1 := by
              intro p hp hpk
              have hp2 : ({ time := t, kind := k } : SendRec) = p :=
                Option.some.inj hp
              subst hp2
              simp only at hpk
              subst hpk
              exact ⟨fr, hlf1, update_frame_valid_when cs r t fr hupd⟩
            cases prev with
            | none =>
              show pacedChain (some { time := t, kind := k }) sends1
              exact ih t cs1 _ cs3 sends1 hinv1 hrun
            | some p =>
              refine ⟨?_, ih t cs1 _ cs3 sends1 hinv1 hrun⟩
              intro hpk
              obtain ⟨fr0, hlf0, hwhen0⟩ := hinv p rfl hpk
              have hage := frameArmReady_valid cs r t fr0 hlf0 hready
              show p.time + FRAME_INT_US ≤ t
              omega

/-- C9 amended: along every session execution from the initial state, a
FramebufferUpdate that follows a send carrying a Valid frame is at least
`min_frame_interval` (100000 microseconds) later; when the earlier send
carried a Generated filler frame, no such spacing is enforced. -/
theorem vnc_pacing_valid_spacing (tmin : Nat) (tr : List (Nat × SessEvent))
    (cs2 : ClientState) (sends : List SendRec)
    (h : runTrace tmin csInit tr = some (cs2, sends)) :
    pacedChain none sends := by
  refine runTrace_paced tr tmin csInit none cs2 sends ?_ h
  intro p hp
  exact absurd hp (by simp)

/-- The tiny frame as captured at time 1000. -/
def frameW1000 : Frame :=
  { spec := specTiny, data := [0, 0, 0, 0], when := 1000 }

/-- Final session state of the trace `trC9`. -/
def csEnd9 : ClientState :=
  { lastFrame := some (frameW1000, FrameKind.Valid), fbuReq := false }

/-- C9 witness: the amended pacing property on the concrete trace `trC9`. -/
theorem vnc_pacing_valid_spacing_witness :
    pacedChain none
      [{ time := 0, kind := FrameKind.Generated },
       { time := 1000, kind := FrameKind.Valid }] := by
  exact vnc_pacing_valid_spacing 0 trC9 csEnd9
    [{ time := 0, kind := FrameKind.Generated },
     { time := 1000, kind := FrameKind.Valid }] rfl

/-- C10: whenever `wait_for_next_frame` resolves, the post-update
`last_frame` is occupied, so the unconditional unwrap in `send_fbu` cannot
panic in any session execution. -/
theorem send_fbu_unwrap_safe (cs : ClientState)
    (r : Option (FramebufferSpec × List Nat)) (now : Nat)
    (hready : frameArmReady cs r now = true) :
    ((update_frame cs r now).1.lastFrame).isSome = true ∧
    (send_fbu (update_frame cs r now).1 now).isSome = true := by
  have h1 := update_frame_isSome cs r now
  refine ⟨h1, ?_⟩
  cases hlf : (update_frame cs r now).1.lastFrame with
  | none =>
    rw [hlf] at h1
    simp at h1
  | some pk =>
    obtain ⟨fr, k⟩ := pk
    simp [send_fbu, hlf]

/-- C10 witness: the frame arm firing on a pending request with no cached
frame. -/
theorem send_fbu_unwrap_safe_witness :
    frameArmReady csReq readTiny 0 = true ∧
    (send_fbu (update_frame csReq readTiny 0).1 0).isSome = true := by
  exact ⟨rfl, (send_fbu_unwrap_safe csReq readTiny 0 rfl).2⟩
